import Mathlib

/-!
Shallow embedding of the time-and-wage ledger reconciler in `src/app.py`.

Conventions of the embedding:
* A pandas cell that can be NaN/NaT is modelled as `Option ℚ` (`none` = NaN/NaT).
  Comparisons with NaN are `false` (as in pandas), arithmetic with NaN yields NaN.
* Datetimes (the `Time` column) are modelled as rational epoch seconds; taking
  the calendar date of a datetime (`.date()` in the source) becomes flooring to
  an epoch day.  `pd.to_datetime(x, unit='s')` is the identity on this model,
  and `NaT.date()` is modelled as the missing date `none`.
* `df.sort_values('Timestamp')` is modelled as a stable sort with NaN last
  (pandas' quicksort does not pin the order of equal keys; the stable order is
  the one pandas produces on the small instances used in the theorems below).
* `df.groupby(keys)` (with pandas' default `sort=True`) is modelled as: the
  deduplicated key list sorted ascending, each group being the rows of the
  (already sorted) frame with that key, in frame order; rows whose key is
  missing are dropped, as pandas does.
* The tolerant date-time parser (`pd.to_datetime(col, errors='coerce')`) and
  the numeric coercion (`pd.to_numeric(col, errors='coerce')`) are parameters
  `pT pN : String → Option ℚ` of the normalizer: the logic under verification
  does not depend on their internals.
-/

namespace WorkLog

/-- A NaN-able timestamp / numeric cell (`none` = NaN/NaT). -/
abbrev TS := Option ℚ

/-- One normalized row of the `work_log` sheet: columns
`Name, Scheme, Action, Time, Timestamp` (`load_data` in `src/app.py`). -/
structure Row where
  name : String
  scheme : String
  action : String
  time : TS
  timestamp : TS
  deriving DecidableEq

/-- `BUDGET_LIMIT = 120000` from `src/app.py`. -/
def BUDGET_LIMIT : ℚ := 120000

/-- `BASE_RATE = 500` from `src/app.py`. -/
def BASE_RATE : ℚ := 500

/-- Pandas comparison `a <= b` lifted to NaN-able cells, as used by
`sort_values` with NaN placed last: a NaN compares below nothing and
sorts after every number. -/
def tsleB : TS → TS → Bool
  | some a, some b => a ≤ b
  | some _, none => true
  | none, some _ => false
  | none, none => true

/-- Strict version of `tsleB` (used only in proofs). -/
def tsltB : TS → TS → Bool
  | some a, some b => a < b
  | some _, none => true
  | none, _ => false

/-- NaN-propagating subtraction of two cells. -/
def tsSub : TS → TS → TS
  | some a, some b => some (a - b)
  | _, _ => none

/-- Calendar date of a datetime cell: epoch day by flooring; `NaT` has no date.
Models `pd.to_datetime(x).date()`. -/
def dateOfOpt (t : TS) : Option ℤ := t.map (fun q => Rat.floor (q / 86400))

/-- Row order used by `df.sort_values('Timestamp')`: by the `Timestamp` cell,
NaN last. -/
def rowLe (a b : Row) : Prop := tsleB a.timestamp b.timestamp = true

instance : DecidableRel rowLe := fun a b => Bool.decEq _ _

instance : IsTotal Row rowLe := by
  constructor
  intro a b
  unfold rowLe
  cases ha : a.timestamp <;> cases hb : b.timestamp <;> simp [tsleB, le_total]

instance : IsTrans Row rowLe := by
  constructor
  intro a b c
  unfold rowLe
  cases a.timestamp <;> cases b.timestamp <;> cases c.timestamp <;>
    simp [tsleB] <;> exact fun h1 h2 => le_trans h1 h2

/-- `df.sort_values('Timestamp')` (stable, NaN last). -/
def sortTs (l : List Row) : List Row := l.insertionSort rowLe

/-- Lexicographic `Bool` order on the `(Name, Scheme)` group keys (pandas
`groupby` yields groups in ascending key order). -/
def keyLeB (a b : String × String) : Bool :=
  decide (a.1 < b.1) || (a.1 == b.1 && (decide (a.2 < b.2) || a.2 == b.2))

def keyLe (a b : String × String) : Prop := keyLeB a b = true

instance : DecidableRel keyLe := fun a b => Bool.decEq _ _

/-- The group keys of `df.groupby(['Name', 'Scheme'])`: deduplicated, ascending. -/
def groupKeys (s : List Row) : List (String × String) :=
  ((s.map (fun r => (r.name, r.scheme))).dedup).insertionSort keyLe

/-- The rows of one `(Name, Scheme)` group, in frame order. -/
def groupRows (s : List Row) (k : String × String) : List Row :=
  s.filter (fun r => decide (r.name = k.1 ∧ r.scheme = k.2))

/-- One session row produced by `calculate_salary_stats` before the
`Rate_Applied` / `Earnings` columns are added. -/
structure Rec0 where
  name : String
  scheme : String
  date : Option ℤ
  time_in : TS
  time_out : TS
  minutes : ℤ
  hours : ℚ
  status : String
  deriving DecidableEq

/-- The trailing `Working` record for an unclosed cursor (its `Date` is taken
from the opening `Timestamp`, `Time_Out` is NaT, minutes/hours are zero). -/
def workingRec0 (k : String × String) (s : TS) : Rec0 :=
  ⟨k.1, k.2, dateOfOpt s, s, none, 0, 0, "Working"⟩

/-- The `Done` record emitted when a `休息`/`下班` row closes an open cursor:
emitted only when `duration > 0` (a NaN duration fails that test). -/
def closingEmit (k : String × String) (s : TS) (row : Row) : List Rec0 :=
  match tsSub row.timestamp s with
  | some d =>
    if 0 < d then
      [⟨k.1, k.2, dateOfOpt row.time, s, row.timestamp, Int.ceil (d / 60), d / 3600, "Done"⟩]
    else []
  | none => []

/-- One step of the per-group fold in `calculate_salary_stats`
(state = the `start_time` cursor, which may itself hold NaN). -/
def salaryStep (k : String × String) (st : Option TS) (row : Row) :
    Option TS × List Rec0 :=
  if row.action = "上班" then (some row.timestamp, [])
  else if row.action = "下班" ∨ row.action = "休息" then
    match st with
    | some s => (none, closingEmit k s row)
    | none => (none, [])
  else (st, [])

/-- The per-group fold of `calculate_salary_stats`, including the trailing
`Working` record for a still-open cursor. -/
def salaryGroup (k : String × String) : Option TS → List Row → List Rec0
  | st, [] => (match st with | some s => [workingRec0 k s] | none => [])
  | st, row :: rest =>
    (salaryStep k st row).2 ++ salaryGroup k (salaryStep k st row).1 rest

/-- All session records, group by group over the sorted frame. -/
def salaryRecords0 (s : List Row) : List Rec0 :=
  (groupKeys s).flatMap (fun k => salaryGroup k none (groupRows s k))

/-- One row of the scheme statistics table built by `calculate_salary_stats`. -/
structure SchemeStat where
  scheme : String
  total_hours : ℚ
  current_rate : ℚ
  total_spent : ℚ
  status : String
  deriving DecidableEq

/-- Total `Done` hours of one scheme. -/
def schemeTotalHours (recs : List Rec0) (sch : String) : ℚ :=
  ((recs.filter (fun r => decide (r.scheme = sch ∧ r.status = "Done"))).map
    (fun r => r.hours)).sum

/-- The budget-cap branch of `calculate_salary_stats` for one scheme
(`potential_cost = total_hours * BASE_RATE`; when it exceeds the limit the
rate becomes `BUDGET_LIMIT / total_hours`, guarded exactly as in the source
by `if total_hours > 0`). -/
def mkSchemeStat (recs : List Rec0) (sch : String) : SchemeStat :=
  if schemeTotalHours recs sch * BASE_RATE > BUDGET_LIMIT then
    ⟨sch, schemeTotalHours recs sch,
      if 0 < schemeTotalHours recs sch then BUDGET_LIMIT / schemeTotalHours recs sch
      else BASE_RATE,
      schemeTotalHours recs sch *
        (if 0 < schemeTotalHours recs sch then BUDGET_LIMIT / schemeTotalHours recs sch
         else BASE_RATE),
      "⚠️ 已達上限 (自動降薪)"⟩
  else
    ⟨sch, schemeTotalHours recs sch, BASE_RATE,
      schemeTotalHours recs sch * BASE_RATE, "✅ 預算內"⟩

/-- The fixed scheme identifiers iterated by the rate engine. -/
def schemes : List String := ["方案1", "方案2", "方案3"]

/-- `rate_map` as a lookup: schemes outside the three known ones map to NaN. -/
def rate_map (recs : List Rec0) (sch : String) : Option ℚ :=
  if sch ∈ schemes then some (mkSchemeStat recs sch).current_rate else none

/-- A finished session row (`Rate_Applied` and `Earnings` columns added). -/
structure Rec where
  name : String
  scheme : String
  date : Option ℤ
  time_in : TS
  time_out : TS
  minutes : ℤ
  hours : ℚ
  status : String
  rate_applied : Option ℚ
  earnings : Option ℚ
  deriving DecidableEq

/-- Adds the `Rate_Applied` and `Earnings` columns. -/
def finalize (rm : String → Option ℚ) (r : Rec0) : Rec :=
  ⟨r.name, r.scheme, r.date, r.time_in, r.time_out, r.minutes, r.hours, r.status,
    rm r.scheme,
    if r.status = "Done" then (rm r.scheme).map (fun ra => r.hours * ra) else some 0⟩

/-- The body of `calculate_salary_stats` after the initial sort. -/
def calcFromSorted (s : List Row) : List Rec × List SchemeStat :=
  if salaryRecords0 s = [] then ([], [])
  else ((salaryRecords0 s).map (finalize (rate_map (salaryRecords0 s))),
    schemes.map (mkSchemeStat (salaryRecords0 s)))

/-- `calculate_salary_stats` from `src/app.py`: sorts by `Timestamp`, folds
each `(Name, Scheme)` group into sessions, then computes per-scheme budget
statistics and per-session earnings. -/
def calculate_salary_stats (df : List Row) : List Rec × List SchemeStat :=
  if df = [] then ([], []) else calcFromSorted (sortTs df)

/-- The claim-side "chronologically last" event: maximal `Timestamp`, ties
resolved in favour of the later row (the store's recorded order). -/
def chronoLast : List Row → Option Row
  | [] => none
  | a :: l =>
    match chronoLast l with
    | none => some a
    | some b => if tsleB a.timestamp b.timestamp then some b else some a

/-- The branch on the last record in `get_user_state`. -/
def statusOfLast : Option Row → String × Option String × Option TS
  | none => ("OFF", none, none)
  | some last =>
    if last.action = "上班" then ("WORKING", some last.scheme, some last.time)
    else if last.action = "休息" then ("RESTING", some last.scheme, some last.time)
    else ("OFF", none, none)

/-- The filter in `get_user_state`: this worker's rows with
`Timestamp <= now + 60` (a NaN `Timestamp` fails the comparison). -/
def userFilter (df : List Row) (name : String) (now : ℚ) : List Row :=
  df.filter (fun r => decide (r.name = name) && tsleB r.timestamp (some (now + 60)))

/-- `get_user_state` from `src/app.py`; `now` stands for
`get_taiwan_now().timestamp()`. -/
def get_user_state (df : List Row) (name : String) (now : ℚ) :
    String × Option String × Option TS :=
  if df = [] then ("OFF", none, none)
  else statusOfLast (sortTs (userFilter df name now)).getLast?

/-- One detail record produced by `update_daily_summary_sheet` (work segments
carry `RestSeconds = 0`, rest segments carry `WorkSeconds = 0` and NaT
`Start`/`End`). -/
structure DRec where
  name : String
  date : Option ℤ
  workSeconds : ℚ
  restSeconds : ℚ
  dstart : TS
  dend : TS
  deriving DecidableEq

/-- A rest segment closed at `row`: emitted only when its duration is
positive; its `Date` is the date of the closing row's `Time` cell. -/
def restEmit (nm : String) (sr : TS) (row : Row) : List DRec :=
  match tsSub row.timestamp sr with
  | some d => if 0 < d then [⟨nm, dateOfOpt row.time, 0, d, none, none⟩] else []
  | none => []

/-- A work segment closed at `row`: emitted only when its duration is
positive; its `Date` is the date of the closing row's `Time` cell. -/
def workEmit (nm : String) (sw : TS) (row : Row) : List DRec :=
  match tsSub row.timestamp sw with
  | some d =>
    if 0 < d then [⟨nm, dateOfOpt row.time, d, 0, sw, row.timestamp⟩] else []
  | none => []

/-- One step of the per-group loop in `update_daily_summary_sheet`
(state = the `start_work` and `start_rest` cursors). -/
def dailyStep (nm : String) (st : Option TS × Option TS) (row : Row) :
    (Option TS × Option TS) × List DRec :=
  if row.action = "上班" then
    ((some row.timestamp, none),
      match st.2 with | some sr => restEmit nm sr row | none => [])
  else if row.action = "休息" then
    ((none, some row.timestamp),
      match st.1 with | some sw => workEmit nm sw row | none => [])
  else if row.action = "下班" then
    ((none, none),
      (match st.1 with | some sw => workEmit nm sw row | none => []) ++
      (match st.2 with | some sr => restEmit nm sr row | none => []))
  else (st, [])

/-- Per-group loop of `update_daily_summary_sheet`; open cursors at the end of
a group are discarded (no trailing record). -/
def dailyGroup (nm : String) : Option TS × Option TS → List Row → List DRec
  | _, [] => []
  | st, row :: rest =>
    (dailyStep nm st row).2 ++ dailyGroup nm (dailyStep nm st row).1 rest

/-- All detail records of `update_daily_summary_sheet`, group by group over
the frame sorted by `Timestamp`. -/
def dailyRecords (df : List Row) : List DRec :=
  (groupKeys (sortTs df)).flatMap
    (fun k => dailyGroup k.1 (none, none) (groupRows (sortTs df) k))

/-- One aggregated row of the `daily_summary` sheet (before string
formatting: times kept in seconds). -/
structure DSum where
  name : String
  date : ℤ
  first_start : TS
  last_end : TS
  workTotal : ℚ
  restTotal : ℚ
  deriving DecidableEq

/-- Lexicographic order on the `(Name, Date)` summary keys. -/
def dKeyLeB (a b : String × ℤ) : Bool :=
  decide (a.1 < b.1) || (a.1 == b.1 && decide (a.2 ≤ b.2))

def dKeyLe (a b : String × ℤ) : Prop := dKeyLeB a b = true

instance : DecidableRel dKeyLe := fun a b => Bool.decEq _ _

/-- The `(Name, Date)` keys of `detail_df.groupby(['Name', 'Date'])`:
records with a missing date are dropped (pandas drops NaN group keys),
keys deduplicated and ascending. -/
def dailyKeys (recs : List DRec) : List (String × ℤ) :=
  ((recs.filterMap (fun r => r.date.map (fun d => (r.name, d)))).dedup).insertionSort dKeyLe

/-- The aggregation of one `(Name, Date)` group: min `Start`, max `End`
(NaT skipped, as pandas' min/max do), and separate sums of the work and rest
second columns. -/
def dailyAgg (recs : List DRec) (k : String × ℤ) : DSum :=
  ⟨k.1, k.2,
    ((recs.filter (fun r => decide (r.name = k.1 ∧ r.date = some k.2))).filterMap
      (fun r => r.dstart)).min?,
    ((recs.filter (fun r => decide (r.name = k.1 ∧ r.date = some k.2))).filterMap
      (fun r => r.dend)).max?,
    ((recs.filter (fun r => decide (r.name = k.1 ∧ r.date = some k.2))).map
      (fun r => r.workSeconds)).sum,
    ((recs.filter (fun r => decide (r.name = k.1 ∧ r.date = some k.2))).map
      (fun r => r.restSeconds)).sum⟩

/-- The summary table written by `update_daily_summary_sheet` (the write to
the sheet, the division by 3600 and the string formatting are presentation
and are not modelled). -/
def dailySummary (df : List Row) : List DSum :=
  (dailyKeys (dailyRecords df)).map (dailyAgg (dailyRecords df))

/-- The expected header of the `work_log` sheet. -/
def expected_cols : List String := ["Name", "Scheme", "Action", "Time", "Timestamp"]

/-- The cell of column `c` in one raw row, addressed through the header row
(first occurrence, as pandas column selection does; missing cells read as
the empty string). -/
def colVal (headers row : List String) (c : String) : String :=
  match headers.findIdx? (fun h => h == c) with
  | some i => row.getD i ""
  | none => ""

/-- One raw row turned into a typed `Row`; `pT`/`pN` are the tolerant
date-time parser and the numeric coercion (both `errors='coerce'`:
failure yields `none`, never an exception). -/
def parseRow (pT pN : String → Option ℚ) (headers row : List String) : Row :=
  { name := colVal headers row "Name"
    scheme := colVal headers row "Scheme"
    action := colVal headers row "Action"
    time := pT (colVal headers row "Time")
    timestamp := pN (colVal headers row "Timestamp") }

/-- `load_data` from `src/app.py` (the part after the sheet fetch): yields no
rows when the payload is empty or when the header row does not contain every
expected column (`set(expected_cols).issubset(set(headers))`); otherwise each
data row becomes one `Row`, with `Time`/`Timestamp` coerced. -/
def load_data (pT pN : String → Option ℚ) (data : List (List String)) : List Row :=
  match data with
  | [] => []
  | headers :: rest =>
    if expected_cols.all (fun c => headers.contains c) then
      rest.map (parseRow pT pN headers)
    else []

/-- `recalculate_timestamp` from `src/app.py`: recomputes every row's
`Timestamp` from its `Time` cell; a NaT `Time` makes `x.timestamp()` raise,
which the bare `except` turns into `(df, False)` with the frame unchanged. -/
def recalculate_timestamp (df : List Row) : List Row × Bool :=
  if df.all (fun r => r.time.isSome) then
    (df.map (fun r => { r with timestamp := r.time }), true)
  else (df, false)

/-- Serialization of a cell for the sheet write in `save_data_overwrite`
(stands for `strftime` / `str`; its exact format is irrelevant here). -/
def cellStr : TS → String
  | none => ""
  | some q => toString q

def serializeRow (r : Row) : List String :=
  [r.name, r.scheme, r.action, cellStr r.time, cellStr r.timestamp]

/-- `save_data_overwrite` from `src/app.py`, acting on the `work_log` sheet
contents: an empty frame is refused before anything is cleared or written
(`if df.empty: return False`); otherwise the sheet is cleared and rewritten
as header plus rows.  (The follow-up `update_daily_summary_sheet` call writes
a different sheet and is modelled separately by `dailySummary`.) -/
def save_data_overwrite (df : List Row) (store : List (List String)) :
    Bool × List (List String) :=
  if df = [] then (false, store)
  else (true, expected_cols :: df.map serializeRow)

/-- Accumulator of the digit-string parser below. -/
def parseDigits : List Char → Nat → Option Nat
  | [], acc => some acc
  | c :: cs, acc =>
    if c.isDigit then parseDigits cs (10 * acc + (c.toNat - 48)) else none

/-- Digit-string parser used to instantiate `pT`/`pN` in concrete witnesses
(any string with a non-digit fails, e.g. a malformed date). -/
def parseQ (s : String) : Option ℚ :=
  match s.data with
  | [] => none
  | c :: cs => (parseDigits (c :: cs) 0).map (fun n => (n : ℚ))

/-- A two-event day: clock in at epoch second 0, clock out at 3600. -/
def rIn0 : Row := ⟨"A", "方案1", "上班", some 0, some 0⟩
def rOut0 : Row := ⟨"A", "方案1", "下班", some 3600, some 3600⟩
def dfW : List Row := [rIn0, rOut0]
def dfWrev : List Row := [rOut0, rIn0]

/-- Two events sharing one timestamp: storage order decides which comes
first after the (stable) sort. -/
def rInTie : Row := ⟨"A", "方案1", "上班", some 10, some 10⟩
def rOutTie : Row := ⟨"A", "方案1", "下班", some 10, some 10⟩
def dfTie : List Row := [rInTie, rOutTie]
def dfTieRev : List Row := [rOutTie, rInTie]

/-- A raw payload whose header is a strict superset of the expected schema. -/
def hdrC5 : List String := ["Name", "Scheme", "Action", "Time", "Timestamp", "Extra"]
def dataC5 : List (List String) := [hdrC5, ["A", "方案1", "上班", "100", "100", "x"]]

/-- A raw payload with one unparseable `Time` cell ("garbage") next to a
numeric `Timestamp`, followed by a well-formed closing row. -/
def rowsC6 : List (List String) :=
  [["A", "方案1", "上班", "garbage", "100"], ["A", "方案1", "下班", "6000", "200"]]
def dataC6 : List (List String) := expected_cols :: rowsC6

/-- A raw payload with a parseable `Time` cell and a non-numeric `Timestamp`. -/
def dataC7 : List (List String) := [expected_cols, ["A", "方案1", "上班", "100", "abc"]]

/-- A session crossing midnight: clock in at 23:00 of epoch day 0
(second 82800), clock out at 01:00 of epoch day 1 (second 90000). -/
def rNight : Row := ⟨"A", "方案1", "上班", some 82800, some 82800⟩
def rMorning : Row := ⟨"A", "方案1", "下班", some 90000, some 90000⟩
def dfC8 : List Row := [rNight, rMorning]

/-- The single `Done` record that `calculate_salary_stats` produces on `dfW`. -/
def recW : Rec :=
  ⟨"A", "方案1", some 0, some 0, some 3600, 60, 1, "Done", some 500, some 500⟩

/-- The `方案1` statistics row that the rate engine produces on `dfW`. -/
def statW : SchemeStat := ⟨"方案1", 1, 500, 500, "✅ 預算內"⟩

/-- A row whose `Time` cell failed to parse (NaT) but whose `Timestamp` is
numeric. -/
def rBadT : Row := ⟨"A", "方案1", "上班", none, some 5⟩

/-- A closing row whose timestamp (5) lies before the open cursor used in the
C2 witness (10): the clock moved backward. -/
def rowEarly : Row := ⟨"A", "方案1", "下班", some 5, some 5⟩

/-- A clock-out row at second 50 (used to exercise one daily-summary step). -/
def rClose : Row := ⟨"A", "方案1", "下班", some 50, some 50⟩

/-- The work record the daily-summary step emits on `rClose` from a work
cursor opened at second 0. -/
def dRecClose : DRec := ⟨"A", some 0, 50, 0, some 0, some 50⟩

/-- The midnight-crossing work record of `dfC8`. -/
def dRecC8 : DRec := ⟨"A", some 1, 7200, 0, some 82800, some 90000⟩

/-- The single summary row of `dfC8`. -/
def dSumC8 : DSum := ⟨"A", 1, some 82800, some 90000, 7200, 0⟩

/-- Strict row order by `Timestamp` (proofs only): NaN counts as largest. -/
def rowLt (a b : Row) : Prop := tsltB a.timestamp b.timestamp = true

instance : IsAntisymm Row rowLt := by
  constructor
  intro a b h1 h2
  exfalso
  unfold rowLt at h1 h2
  cases ha : a.timestamp <;> cases hb : b.timestamp <;>
    rw [ha, hb] at h1 h2 <;> simp [tsltB] at h1 h2
  exact absurd h2 (not_lt.mpr (le_of_lt h1))

attribute [local semireducible] Rat.mul Rat.inv Rat.add Rat.sub

/-- C10: the full-log overwrite save refuses an empty dataset: it reports
failure and leaves the stored event log untouched, for every prior store
content. -/
theorem c10_empty_overwrite_refused (store : List (List String)) :
    save_data_overwrite [] store = (false, store) := rfl

/-- C5 (counterexample): a header that is a strict superset of the expected
schema (`Extra` added) is accepted by `load_data`, which then yields the data
rows — not the empty sequence the claim requires for any header set differing
from the expected one. -/
theorem c5_superset_counterexample :
    load_data parseQ parseQ dataC5 ≠ [] ∧ "Extra" ∈ hdrC5 ∧ "Extra" ∉ expected_cols := by
  decide

/-- C5 (amended): the normalizer yields an empty sequence exactly when the
payload has no rows at all, the header row does not contain every expected
column (supersets are accepted), or there are no data rows below the header. -/
theorem c5_empty_iff (pT pN : String → Option ℚ) :
    load_data pT pN [] = [] ∧
    ∀ headers rest, load_data pT pN (headers :: rest) = [] ↔
      (expected_cols.all (fun c => headers.contains c) = false ∨ rest = []) := by
  refine ⟨rfl, fun headers rest => ?_⟩
  simp only [load_data]
  split
  next h =>
    rw [List.map_eq_nil_iff]
    constructor
    · exact Or.inr
    · rintro (hf | hr)
      · exact absurd (hf ▸ h) Bool.false_ne_true
      · exact hr
  next h => exact iff_of_true rfl (Or.inl (Bool.eq_false_iff.mpr h))

/-- C6 (counterexample): a row whose `Time` cell is unparseable is not
dropped by the normalizer — it survives with `Time = NaT` — and, carrying a
numeric `Timestamp`, it opens the very `Done` session the reconciler emits
(`Time_In = 100` is the malformed row's timestamp), contradicting the claim
that such a row contributes to no derived entity. -/
theorem c6_unparseable_retained_counterexample :
    (load_data parseQ parseQ dataC6).map (fun r => r.time) = [none, some 6000] ∧
    (calculate_salary_stats (load_data parseQ parseQ dataC6)).1.map
      (fun r => (r.status, r.time_in)) = [("Done", some 100)] := by
  decide

/-- C6 (amended): the normalizer drops no data row: whenever the header is
accepted, every data row yields exactly one event (with an unparseable `Time`
coerced to NaT rather than the row being removed). -/
theorem c6_rows_retained (pT pN : String → Option ℚ) (headers : List String)
    (rest : List (List String))
    (h : expected_cols.all (fun c => headers.contains c) = true) :
    (load_data pT pN (headers :: rest)).length = rest.length := by
  simp only [load_data]
  rw [if_pos h]
  exact List.length_map rest _

/-- C6 witness: the amended statement evaluated on the concrete malformed
payload. -/
theorem c6_rows_retained_witness :
    (load_data parseQ parseQ dataC6).length = rowsC6.length :=
  c6_rows_retained parseQ parseQ expected_cols rowsC6 (by decide)

/-- C7 (counterexample): a row with a parseable `Time` (100) and a
non-numeric `Timestamp` comes out of the normalizer with `Timestamp = NaN`:
nothing is recomputed from the time field, contradicting the claim. -/
theorem c7_no_recompute_counterexample :
    (load_data parseQ parseQ dataC7).map (fun r => (r.time, r.timestamp)) =
      [(some 100, none)] := by
  decide

/-- C7 (amended): the normalizer leaves a non-numeric `Timestamp` as missing
— the timestamps it produces do not depend on the date-time parser at all —
and recomputation from `Time` happens only in the admin save path:
`recalculate_timestamp` recomputes every row's `Timestamp` from `Time` when
all times are present, and fails wholesale (frame unchanged) when any `Time`
is missing. -/
theorem c7_timestamp_policy :
    (∀ pT₁ pT₂ pN data,
      (load_data pT₁ pN data).map (fun r => r.timestamp) =
        (load_data pT₂ pN data).map (fun r => r.timestamp)) ∧
    (∀ df : List Row, (∀ r ∈ df, r.time.isSome = true) →
      recalculate_timestamp df =
        (df.map (fun r => { r with timestamp := r.time }), true)) ∧
    (∀ (df : List Row) (r : Row), r ∈ df → r.time = none →
      recalculate_timestamp df = (df, false)) := by
  refine ⟨fun pT₁ pT₂ pN data => ?_, fun df h => ?_, fun df r hr ht => ?_⟩
  · cases data with
    | nil => rfl
    | cons headers rest =>
      simp only [load_data]
      split
      next => simp [List.map_map, Function.comp_def, parseRow]
      next => rfl
  · unfold recalculate_timestamp
    rw [if_pos (List.all_eq_true.mpr h)]
  · unfold recalculate_timestamp
    rw [if_neg]
    intro hall
    have := List.all_eq_true.mp hall r hr
    rw [ht] at this
    exact Bool.false_ne_true this

/-- C7 witness: the amended statement evaluated at concrete inputs — the
timestamps `load_data` produces on the malformed payload are the same under
two different time parsers, a frame of parseable times is recomputed row by
row, and a frame containing a NaT time is returned unchanged with failure. -/
theorem c7_timestamp_policy_witness :
    (load_data parseQ parseQ dataC7).map (fun r => r.timestamp) =
      (load_data (fun s => none) parseQ dataC7).map (fun r => r.timestamp) ∧
    recalculate_timestamp [rIn0] =
      ([rIn0].map (fun r => { r with timestamp := r.time }), true) ∧
    recalculate_timestamp [rBadT] = ([rBadT], false) :=
  ⟨c7_timestamp_policy.1 parseQ (fun s => none) parseQ dataC7,
   c7_timestamp_policy.2.1 [rIn0] (by decide),
   c7_timestamp_policy.2.2 [rBadT] rBadT (by decide) rfl⟩

/-- C4: the session reconciler is a pure function of its input: two runs on
the same frame agree, and more generally the result depends only on the
(sorted) event sequence the fold consumes. -/
theorem c4_reconciler_deterministic :
    (∀ df, calculate_salary_stats df = calculate_salary_stats df) ∧
    (∀ df₁ df₂, (df₁ = [] ↔ df₂ = []) → sortTs df₁ = sortTs df₂ →
      calculate_salary_stats df₁ = calculate_salary_stats df₂) := by
  refine ⟨fun df => rfl, fun df₁ df₂ he hs => ?_⟩
  unfold calculate_salary_stats
  by_cases h : df₁ = []
  · rw [if_pos h, if_pos (he.mp h)]
  · rw [if_neg h, if_neg (fun h2 => h (he.mpr h2)), hs]

/-- C4 witness: both parts evaluated on the concrete two-event frame (and a
reordering of it with the same sorted sequence). -/
theorem c4_reconciler_deterministic_witness :
    calculate_salary_stats dfW = calculate_salary_stats dfW ∧
    calculate_salary_stats dfW = calculate_salary_stats dfWrev :=
  ⟨c4_reconciler_deterministic.1 dfW,
   c4_reconciler_deterministic.2 dfW dfWrev (by decide) (by decide)⟩

/-- Helper: the budget-cap properties of one scheme statistics row, for any
record set whose `Done` hours for that scheme are positive. -/
theorem mkSchemeStat_budget (recs : List Rec0) (sch : String)
    (hpos : 0 < (mkSchemeStat recs sch).total_hours) :
    (mkSchemeStat recs sch).total_spent =
      (mkSchemeStat recs sch).total_hours * (mkSchemeStat recs sch).current_rate ∧
    (mkSchemeStat recs sch).total_spent ≤ BUDGET_LIMIT ∧
    (mkSchemeStat recs sch).current_rate =
      min BASE_RATE (BUDGET_LIMIT / (mkSchemeStat recs sch).total_hours) := by
  have hth : 0 < schemeTotalHours recs sch := by
    unfold mkSchemeStat at hpos
    split at hpos <;> exact hpos
  have hne : schemeTotalHours recs sch ≠ 0 := ne_of_gt hth
  unfold mkSchemeStat
  by_cases hc : schemeTotalHours recs sch * BASE_RATE > BUDGET_LIMIT
  case pos =>
    simp only [if_pos hc, if_pos hth]
    refine ⟨trivial, ?_, ?_⟩
    · show schemeTotalHours recs sch * (BUDGET_LIMIT / schemeTotalHours recs sch) ≤
        BUDGET_LIMIT
      rw [mul_comm, div_mul_cancel₀ _ hne]
    · show BUDGET_LIMIT / schemeTotalHours recs sch =
        min BASE_RATE (BUDGET_LIMIT / schemeTotalHours recs sch)
      refine (min_eq_right ?_).symm
      exact le_of_lt ((div_lt_iff₀ hth).mpr (by linarith [hc]))
  case neg =>
    have hle : schemeTotalHours recs sch * BASE_RATE ≤ BUDGET_LIMIT := not_lt.mp hc
    simp only [if_neg hc]
    refine ⟨trivial, hle, ?_⟩
    show BASE_RATE = min BASE_RATE (BUDGET_LIMIT / schemeTotalHours recs sch)
    refine (min_eq_left ?_).symm
    rw [le_div_iff₀ hth, mul_comm]
    exact hle

/-- C1: every scheme statistics row with positive `Done` hours satisfies
`total_spent = total_hours * effective_rate`, stays within the budget
ceiling, and its effective rate is exactly
`min(base_rate, budget_limit / total_hours)`. -/
theorem c1_budget_cap (df : List Row) (stat : SchemeStat)
    (hmem : stat ∈ (calculate_salary_stats df).2) (hpos : 0 < stat.total_hours) :
    stat.total_spent = stat.total_hours * stat.current_rate ∧
    stat.total_spent ≤ BUDGET_LIMIT ∧
    stat.current_rate = min BASE_RATE (BUDGET_LIMIT / stat.total_hours) := by
  unfold calculate_salary_stats at hmem
  split at hmem
  · simp at hmem
  · unfold calcFromSorted at hmem
    split at hmem
    · simp at hmem
    · obtain ⟨sch, hsch, rfl⟩ := List.mem_map.mp hmem
      exact mkSchemeStat_budget _ sch hpos

/-- C1 witness: the budget-cap statement evaluated on the concrete one-hour
frame `dfW` and its `方案1` statistics row. -/
theorem c1_budget_cap_witness :
    (0 : ℚ) < statW.total_hours ∧
    (statW.total_spent = statW.total_hours * statW.current_rate ∧
     statW.total_spent ≤ BUDGET_LIMIT ∧
     statW.current_rate = min BASE_RATE (BUDGET_LIMIT / statW.total_hours)) :=
  ⟨by decide, c1_budget_cap dfW statW (by decide) (by decide)⟩

/-- Helper: inversion of the NaN-propagating subtraction. -/
theorem tsSub_eq_some {x y : TS} {d : ℚ} (h : tsSub x y = some d) :
    ∃ a b, x = some a ∧ y = some b ∧ d = a - b := by
  cases x <;> cases y <;> simp [tsSub] at h ⊢
  exact h.symm

/-- Helper: every record emitted by `closingEmit` is a strictly positive
interval with both endpoints present. -/
theorem closingEmit_pos (k : String × String) (s : TS) (row : Row) :
    ∀ rec ∈ closingEmit k s row,
      ∃ a b, rec.time_in = some a ∧ rec.time_out = some b ∧ a < b := by
  intro rec hrec
  unfold closingEmit at hrec
  cases hsub : tsSub row.timestamp s with
  | none => rw [hsub] at hrec; simp at hrec
  | some d =>
    rw [hsub] at hrec
    simp only [] at hrec
    by_cases hd : 0 < d
    · rw [if_pos hd] at hrec
      simp at hrec
      obtain ⟨a, b, hts, hs, hab⟩ := tsSub_eq_some hsub
      subst hrec
      exact ⟨b, a, by simp [hs], by simp [hts], by linarith [hab ▸ hd]⟩
    · rw [if_neg hd] at hrec
      simp at hrec

/-- Helper: every `Done` record produced by the per-group fold is a strictly
positive interval. -/
theorem salaryGroup_done (k : String × String) :
    ∀ (rows : List Row) (st : Option TS) (rec : Rec0), rec ∈ salaryGroup k st rows →
      rec.status = "Done" →
      ∃ a b, rec.time_in = some a ∧ rec.time_out = some b ∧ a < b := by
  intro rows
  induction rows with
  | nil =>
    intro st rec hrec hst
    unfold salaryGroup at hrec
    cases st with
    | none => simp at hrec
    | some s =>
      simp at hrec
      rw [hrec] at hst
      simp [workingRec0] at hst
  | cons row rest ih =>
    intro st rec hrec hst
    unfold salaryGroup at hrec
    rw [List.mem_append] at hrec
    cases hrec with
    | inr hin => exact ih _ rec hin hst
    | inl hin =>
      unfold salaryStep at hin
      split at hin
      · simp at hin
      · split at hin
        · cases st with
          | none => simp at hin
          | some s => exact closingEmit_pos k s row rec (by simpa using hin)
        · simp at hin

/-- C2: every `Done` session emitted by the reconciler has both endpoints
present and `end > start` strictly; and a closing `休息`/`下班` row whose
duration against the open cursor is non-positive clears the cursor and emits
nothing. -/
theorem c2_positive_durations :
    (∀ (df : List Row) (rec : Rec), rec ∈ (calculate_salary_stats df).1 →
      rec.status = "Done" →
      ∃ a b, rec.time_in = some a ∧ rec.time_out = some b ∧ a < b) ∧
    (∀ (k : String × String) (s : TS) (row : Row) (d : ℚ),
      (row.action = "下班" ∨ row.action = "休息") →
      tsSub row.timestamp s = some d → d ≤ 0 →
      salaryStep k (some s) row = (none, [])) := by
  constructor
  · intro df rec hmem hst
    unfold calculate_salary_stats at hmem
    split at hmem
    · simp at hmem
    · unfold calcFromSorted at hmem
      split at hmem
      · simp at hmem
      · obtain ⟨r0, hr0, rfl⟩ := List.mem_map.mp hmem
        obtain ⟨k, hk, hg⟩ := List.mem_flatMap.mp hr0
        exact salaryGroup_done k _ none r0 hg hst
  · intro k s row d hact hsub hd
    have hne1 : ¬ row.action = "上班" := by
      intro heq
      rcases hact with h | h <;> rw [heq] at h <;> exact absurd h (by decide)
    unfold salaryStep
    rw [if_neg hne1, if_pos hact]
    simp only []
    show ((none : Option TS), closingEmit k s row) = ((none : Option TS), ([] : List Rec0))
    unfold closingEmit
    rw [hsub]
    simp only []
    rw [if_neg (not_lt.mpr hd)]

/-- C2 witness: the invariant evaluated on the concrete `Done` record of
`dfW`, and the cursor-clearing step on a backward clock edit (cursor at 10,
closing row at 5). -/
theorem c2_positive_durations_witness :
    (∃ a b, recW.time_in = some a ∧ recW.time_out = some b ∧ a < b) ∧
    salaryStep ("A", "方案1") (some (some 10)) rowEarly = (none, []) :=
  ⟨c2_positive_durations.1 dfW recW (by decide) (by decide),
   c2_positive_durations.2 ("A", "方案1") (some 10) rowEarly (-5)
     (Or.inl rfl) (by decide) (by decide)⟩

/-- C3 (counterexample): two events of the same worker and scheme sharing one
timestamp (a `ClockIn` and a `ClockOut` both at second 10): presenting them
in the two possible storage orders yields different reconciliation output
(the empty session list vs. one trailing `Working` session), because the code
sorts by `Timestamp` only and has no recorded-order tie-break. -/
theorem c3_storage_order_counterexample :
    dfTie.Perm dfTieRev ∧
    calculate_salary_stats dfTie ≠ calculate_salary_stats dfTieRev := by
  decide

/-- Helper: a weak inequality between distinct timestamps is strict. -/
theorem tsleB_ne_lt {a b : TS} (h1 : tsleB a b = true) (h2 : a ≠ b) :
    tsltB a b = true := by
  cases a with
  | none =>
    cases b with
    | none => exact absurd rfl h2
    | some y => exact absurd h1 (by simp [tsleB])
  | some x =>
    cases b with
    | none => rfl
    | some y =>
      simp only [tsleB] at h1
      simp only [tsltB, decide_eq_true_eq] at *
      exact lt_of_le_of_ne h1 (fun hxy => h2 (by rw [hxy]))

/-- Helper: the whole reconciler is a function of the sorted sequence (and
emptiness) of its input frame. -/
theorem calcStats_congr (df₁ df₂ : List Row) (he : df₁ = [] ↔ df₂ = [])
    (hs : sortTs df₁ = sortTs df₂) :
    calculate_salary_stats df₁ = calculate_salary_stats df₂ := by
  unfold calculate_salary_stats
  by_cases h : df₁ = []
  · rw [if_pos h, if_pos (he.mp h)]
  · rw [if_neg h, if_neg (fun h2 => h (he.mpr h2)), hs]

/-- Helper: two permutations of one event set with pairwise distinct
timestamps have the same sorted sequence. -/
theorem sortTs_eq_of_perm (l₁ l₂ : List Row) (hp : l₁.Perm l₂)
    (hd : l₁.Pairwise (fun a b => a.timestamp ≠ b.timestamp)) :
    sortTs l₁ = sortTs l₂ := by
  have hS : ∀ {x y : Row}, x.timestamp ≠ y.timestamp → y.timestamp ≠ x.timestamp :=
    fun h => h.symm
  have hp₁ : List.Perm (sortTs l₁) l₁ := List.perm_insertionSort rowLe l₁
  have hp₂ : List.Perm (sortTs l₂) l₂ := List.perm_insertionSort rowLe l₂
  have hd₁ : (sortTs l₁).Pairwise (fun a b => a.timestamp ≠ b.timestamp) :=
    (hp₁.pairwise_iff hS).mpr hd
  have hd₂ : (sortTs l₂).Pairwise (fun a b => a.timestamp ≠ b.timestamp) :=
    (hp₂.pairwise_iff hS).mpr ((hp.pairwise_iff hS).mp hd)
  have hle₁ : (sortTs l₁).Pairwise rowLe := List.sorted_insertionSort rowLe l₁
  have hle₂ : (sortTs l₂).Pairwise rowLe := List.sorted_insertionSort rowLe l₂
  have hlt₁ : (sortTs l₁).Pairwise rowLt :=
    (hle₁.and hd₁).imp (fun h => tsleB_ne_lt h.1 h.2)
  have hlt₂ : (sortTs l₂).Pairwise rowLt :=
    (hle₂.and hd₂).imp (fun h => tsleB_ne_lt h.1 h.2)
  exact List.eq_of_perm_of_sorted (hp₁.trans (hp.trans hp₂.symm)) hlt₁ hlt₂

/-- C3 (amended): when all timestamps of the event set are pairwise distinct,
presenting the same events in any storage order yields identical
reconciliation output; with a shared timestamp the output can depend on row
order (see the counterexample), because the rows carry no recorded-order
field and the code sorts by `Timestamp` alone. -/
theorem c3_order_insensitive (l₁ l₂ : List Row) (hp : l₁.Perm l₂)
    (hd : l₁.Pairwise (fun a b => a.timestamp ≠ b.timestamp)) :
    calculate_salary_stats l₁ = calculate_salary_stats l₂ := by
  refine calcStats_congr l₁ l₂ ⟨fun h => ?_, fun h => ?_⟩
    (sortTs_eq_of_perm l₁ l₂ hp hd)
  · exact List.length_eq_zero.mp (by rw [← hp.length_eq, h]; rfl)
  · exact List.length_eq_zero.mp (by rw [hp.length_eq, h]; rfl)

/-- C3 witness: the amended statement on the two storage orders of the
distinct-timestamp frame `dfW`. -/
theorem c3_order_insensitive_witness :
    calculate_salary_stats dfW = calculate_salary_stats dfWrev :=
  c3_order_insensitive dfW dfWrev (by decide) (by decide)

/-- Helper: dropping the head of a cons keeps the last element when the tail
is nonempty. -/
theorem getLast_cons_of_ne_nil {α : Type} {x : α} {l : List α} (h : l ≠ []) :
    (x :: l).getLast? = l.getLast? := by
  cases l with
  | nil => exact absurd rfl h
  | cons y ys => exact List.getLast?_cons_cons

/-- Helper: in a sorted list the head is below the last element. -/
theorem sorted_cons_le_getLast {x : Row} {xs : List Row}
    (hs : (x :: xs).Sorted rowLe) {b : Row} (hb : (x :: xs).getLast? = some b) :
    rowLe x b := by
  have hmem : b ∈ x :: xs := List.mem_of_getLast?_eq_some hb
  rcases List.mem_cons.mp hmem with rfl | hmem2
  · show tsleB b.timestamp b.timestamp = true
    cases b.timestamp with
    | none => rfl
    | some q => simp [tsleB]
  · exact (List.sorted_cons.mp hs).1 b hmem2

/-- Helper: the last element after inserting into a sorted list is the old
last element unless the new one is at least as large — the "larger wins,
ties keep the incumbent" rule. -/
theorem getLast_orderedInsert (a : Row) :
    ∀ (s : List Row), s.Sorted rowLe →
      (List.orderedInsert rowLe a s).getLast? =
        (match s.getLast? with
         | none => some a
         | some b => if tsleB a.timestamp b.timestamp then some b else some a) := by
  intro s
  induction s with
  | nil => intro _; rfl
  | cons x xs ih =>
    intro hs
    simp only [List.orderedInsert]
    by_cases h : rowLe a x
    · rw [if_pos h, List.getLast?_cons_cons]
      obtain ⟨b, hb⟩ : ∃ b, (x :: xs).getLast? = some b := by
        cases hxs : (x :: xs).getLast? with
        | none => exact absurd (List.getLast?_eq_none_iff.mp hxs) (by simp)
        | some b => exact ⟨b, rfl⟩
      rw [hb]
      have hab : tsleB a.timestamp b.timestamp = true :=
        IsTrans.trans a x b h (sorted_cons_le_getLast hs hb)
      simp only []
      rw [if_pos hab]
    · rw [if_neg h]
      cases xs with
      | nil =>
        rw [show List.orderedInsert rowLe a [] = [a] from rfl,
          List.getLast?_cons_cons]
        show some a =
          (match ([x].getLast?) with
           | none => some a
           | some b => if tsleB a.timestamp b.timestamp then some b else some a)
        rw [show ([x].getLast?) = some x from rfl]
        simp only []
        rw [if_neg (show ¬ tsleB a.timestamp x.timestamp = true from h)]
      | cons y ys =>
        have hne : List.orderedInsert rowLe a (y :: ys) ≠ [] := by
          intro hnil
          have hlen := congrArg List.length hnil
          rw [List.orderedInsert_length] at hlen
          simp at hlen
        rw [getLast_cons_of_ne_nil hne, ih (List.sorted_cons.mp hs).2,
          List.getLast?_cons_cons]

/-- Helper: the last element of the stable sort is the chronologically last
event (maximal timestamp, later row wins ties). -/
theorem getLast_sortTs (l : List Row) : (sortTs l).getLast? = chronoLast l := by
  induction l with
  | nil => rfl
  | cons a l ih =>
    show (List.orderedInsert rowLe a (sortTs l)).getLast? = chronoLast (a :: l)
    rw [getLast_orderedInsert a (sortTs l) (List.sorted_insertionSort rowLe l), ih]
    rfl

/-- C9: the status projector equals its specification: restrict the worker's
events to `at ≤ now + 60`; when nothing remains the status is `OFF`,
otherwise it is read off the chronologically last remaining event
(`上班` → `WORKING`, `休息` → `RESTING`, anything else → `OFF`), with the
scheme and the `Time` cell of that event as the `since` data. -/
theorem c9_status_projector (df : List Row) (name : String) (now : ℚ) :
    get_user_state df name now = statusOfLast (chronoLast (userFilter df name now)) := by
  unfold get_user_state
  by_cases h : df = []
  · rw [if_pos h]
    subst h
    rfl
  · rw [if_neg h, getLast_sortTs]

/-- Helper: a rest record carries the closing row's date and zero work
seconds. -/
theorem restEmit_fields (nm : String) (sr : TS) (row : Row) :
    ∀ rec ∈ restEmit nm sr row,
      rec.date = dateOfOpt row.time ∧ rec.workSeconds = 0 := by
  intro rec hrec
  unfold restEmit at hrec
  cases hsub : tsSub row.timestamp sr with
  | none => rw [hsub] at hrec; simp at hrec
  | some d =>
    rw [hsub] at hrec
    simp only [] at hrec
    by_cases hd : 0 < d
    · rw [if_pos hd] at hrec
      simp at hrec
      subst hrec
      exact ⟨rfl, rfl⟩
    · rw [if_neg hd] at hrec
      simp at hrec

/-- Helper: a work record carries the closing row's date and zero rest
seconds. -/
theorem workEmit_fields (nm : String) (sw : TS) (row : Row) :
    ∀ rec ∈ workEmit nm sw row,
      rec.date = dateOfOpt row.time ∧ rec.restSeconds = 0 := by
  intro rec hrec
  unfold workEmit at hrec
  cases hsub : tsSub row.timestamp sw with
  | none => rw [hsub] at hrec; simp at hrec
  | some d =>
    rw [hsub] at hrec
    simp only [] at hrec
    by_cases hd : 0 < d
    · rw [if_pos hd] at hrec
      simp at hrec
      subst hrec
      exact ⟨rfl, rfl⟩
    · rw [if_neg hd] at hrec
      simp at hrec

/-- Helper: every record one daily step emits is dated by the closing row's
`Time` cell, and never mixes work and rest seconds. -/
theorem dailyStep_emits (nm : String) (st : Option TS × Option TS) (row : Row) :
    ∀ rec ∈ (dailyStep nm st row).2,
      rec.date = dateOfOpt row.time ∧ (rec.workSeconds = 0 ∨ rec.restSeconds = 0) := by
  obtain ⟨sw, sr⟩ := st
  intro rec hrec
  unfold dailyStep at hrec
  split at hrec
  · cases sr with
    | none => simp at hrec
    | some s =>
      have h := restEmit_fields nm s row rec (by simpa using hrec)
      exact ⟨h.1, Or.inl h.2⟩
  · split at hrec
    · cases sw with
      | none => simp at hrec
      | some s =>
        have h := workEmit_fields nm s row rec (by simpa using hrec)
        exact ⟨h.1, Or.inr h.2⟩
    · split at hrec
      · rw [List.mem_append] at hrec
        simp only [] at hrec
        cases hrec with
        | inl hin =>
          cases sw with
          | none => simp at hin
          | some s =>
            have h := workEmit_fields nm s row rec (by simpa using hin)
            exact ⟨h.1, Or.inr h.2⟩
        | inr hin =>
          cases sr with
          | none => simp at hin
          | some s =>
            have h := restEmit_fields nm s row rec (by simpa using hin)
            exact ⟨h.1, Or.inl h.2⟩
      · simp at hrec

/-- Helper: the work/rest separation holds for every record of a group fold. -/
theorem dailyGroup_separation (nm : String) :
    ∀ (rows : List Row) (st : Option TS × Option TS) (rec : DRec),
      rec ∈ dailyGroup nm st rows →
      rec.workSeconds = 0 ∨ rec.restSeconds = 0 := by
  intro rows
  induction rows with
  | nil => intro st rec hrec; simp [dailyGroup] at hrec
  | cons row rest ih =>
    intro st rec hrec
    unfold dailyGroup at hrec
    rw [List.mem_append] at hrec
    cases hrec with
    | inl hin => exact (dailyStep_emits nm st row rec hin).2
    | inr hin => exact ih _ rec hin

/-- C8 (counterexample): a session running from 23:00 of epoch day 0 to
01:00 of epoch day 1 produces a summary row keyed to day 1 — the date of the
closing event — while the session's start date is day 0, so the summary is
not keyed by the start date as the claim states. -/
theorem c8_start_date_counterexample :
    (dailySummary dfC8).map (fun s => (s.name, s.date)) = [("A", 1)] ∧
    (dailyRecords dfC8).map (fun r => r.dstart) = [some 82800] ∧
    dateOfOpt (some 82800) = some 0 := by
  decide

/-- C8 (amended): the daily aggregator produces one row per (worker, date)
where the date is the date of the `Time` cell of the row that closes each
segment (not the session's start date); work seconds and rest seconds are
accumulated in separate columns from records that never mix the two, so rest
time is never added to net work time. -/
theorem c8_daily_summary :
    (∀ df, ((dailySummary df).map (fun s => (s.name, s.date))).Nodup) ∧
    (∀ (nm : String) (st : Option TS × Option TS) (row : Row),
      ∀ rec ∈ (dailyStep nm st row).2, rec.date = dateOfOpt row.time) ∧
    (∀ df, ∀ rec ∈ dailyRecords df, rec.workSeconds = 0 ∨ rec.restSeconds = 0) ∧
    (∀ df, ∀ s ∈ dailySummary df,
      s.workTotal = (((dailyRecords df).filter
        (fun r => decide (r.name = s.name ∧ r.date = some s.date))).map
          (fun r => r.workSeconds)).sum ∧
      s.restTotal = (((dailyRecords df).filter
        (fun r => decide (r.name = s.name ∧ r.date = some s.date))).map
          (fun r => r.restSeconds)).sum) := by
  refine ⟨fun df => ?_, fun nm st row rec hrec => (dailyStep_emits nm st row rec hrec).1,
    fun df rec hrec => ?_, fun df s hs => ?_⟩
  · unfold dailySummary
    rw [List.map_map]
    have hfun : ((fun s : DSum => (s.name, s.date)) ∘ dailyAgg (dailyRecords df)) =
        fun k => k := by
      funext k
      rfl
    rw [hfun, List.map_id']
    unfold dailyKeys
    exact (List.Perm.nodup_iff (List.perm_insertionSort dKeyLe _)).mpr
      (List.nodup_dedup _)
  · obtain ⟨k, hk, hg⟩ := List.mem_flatMap.mp hrec
    exact dailyGroup_separation k.1 _ _ rec hg
  · obtain ⟨k, hk, rfl⟩ := List.mem_map.mp hs
    exact ⟨rfl, rfl⟩

/-- C8 witness: the amended statement at concrete inputs — the step on a
clock-out row dates its record by that row's time, the midnight-crossing
record of `dfC8` separates work from rest, and the `dfC8` summary row's
totals are the corresponding filtered sums. -/
theorem c8_daily_summary_witness :
    dRecClose.date = dateOfOpt rClose.time ∧
    (dRecC8.workSeconds = 0 ∨ dRecC8.restSeconds = 0) ∧
    (dSumC8.workTotal = (((dailyRecords dfC8).filter
        (fun r => decide (r.name = dSumC8.name ∧ r.date = some dSumC8.date))).map
          (fun r => r.workSeconds)).sum ∧
     dSumC8.restTotal = (((dailyRecords dfC8).filter
        (fun r => decide (r.name = dSumC8.name ∧ r.date = some dSumC8.date))).map
          (fun r => r.restSeconds)).sum) :=
  ⟨c8_daily_summary.2.1 "A" (some (some 0), none) rClose dRecClose (by decide),
   c8_daily_summary.2.2.1 dfC8 dRecC8 (by decide),
   c8_daily_summary.2.2.2 dfC8 dSumC8 (by decide)⟩

end WorkLog
